import Mathlib

/-!
Verification development for the Monsti daemon's coordination core
(`core/monsti-daemon/service.go`): the signal bus, the node-type/field
registry, the file-backed node store, and the config accessor.

Go maps are embedded as association lists (`alookup` / `aset`), Go byte
slices over ASCII data as Lean strings or character lists, Go panics as
`Option` results (`none` = runtime panic), and fallible operations as
`Except String`.  Blocking channel handoffs of the signal bus are
sequentialized: the `FinishSignal` result a subscriber eventually sends is
supplied by a response oracle, which is faithful because `EmitSignal`
processes subscribers strictly one at a time.
-/

namespace Monsti

/-- Go map lookup, embedded over an association list. -/
def alookup {α : Type} (k : String) : List (String × α) → Option α
  | [] => none
  | (k', v) :: rest => if k' = k then some v else alookup k rest

/-- Go map assignment `m[k] = v`, embedded over an association list. -/
def aset {α : Type} (k : String) (v : α) : List (String × α) → List (String × α)
  | [] => [(k, v)]
  | (k', v') :: rest => if k' = k then (k, v) :: rest else (k', v') :: aset k v rest

theorem alookup_aset {α : Type} (k : String) (v : α) :
    ∀ l : List (String × α), alookup k (aset k v l) = some v := by
  intro l
  induction l with
  | nil => simp [alookup, aset]
  | cons p rest ih =>
    by_cases h : p.1 = k
    · simp [aset, alookup, h]
    · simp [aset, alookup, h, ih]

theorem alookup_append {α : Type} (k : String) (l l' : List (String × α)) :
    alookup k (l ++ l') = match alookup k l with
      | some v => some v
      | none => alookup k l' := by
  induction l with
  | nil => simp [alookup]
  | cons p rest ih =>
    by_cases h : p.1 = k
    · simp [alookup, h]
    · simp [alookup, h, ih]

/-! ## Signal bus

Embedding of `ConnectSignal`, `EmitSignal` and the `emitRet`
result record of `service.go`.  `WaitSignal`/`FinishSignal` transport a
subscriber's reply over channels; in the sequential embedding that reply is
provided by a response oracle mapping subscriber ids to their `emitRet`. -/

/-- The `emitRet` record: a reply payload and an error string, where a
non-empty error string marks failure. -/
structure EmitRet where
  ret : List Nat
  error : String
  deriving DecidableEq, Repr

/-- Signal-bus state of `MonstiService`: `subscriptions` maps a signal name
to the ordered list of subscriber ids, and `subscriber` records which ids
already have an inbound channel. -/
structure SignalState where
  subscriptions : List (String × List String)
  subscriber : List String
  deriving DecidableEq, Repr

/-- The `ConnectSignal` operation: appends the subscriber id to the
signal's subscription list (unconditionally) and creates the subscriber's
inbound channel if it does not exist yet. -/
def ConnectSignal (st : SignalState) (id sig : String) : SignalState :=
  let subs := (alookup sig st.subscriptions).getD []
  { subscriptions := aset sig (subs ++ [id]) st.subscriptions
    subscriber := if st.subscriber.contains id then st.subscriber
      else st.subscriber ++ [id] }

/-- The `EmitSignal` loop over a subscription list.  For each subscriber in
order it delivers the signal (recorded in the first component, the delivery
trace) and waits for the subscriber's `emitRet`; a non-empty error string
aborts the loop with the wrapped error and later subscribers are never
reached.  On success the replies are collected in order. -/
def EmitSignal (subs : List String) (resp : String → EmitRet) :
    List String × Except String (List (List Nat)) :=
  match subs with
  | [] => ([], .ok [])
  | id :: rest =>
    let r := resp id
    if r.error = "" then
      let next := EmitSignal rest resp
      (id :: next.1,
        match next.2 with
        | .ok l => .ok (r.ret :: l)
        | .error e => .error e)
    else
      ([id], .error ("Received error as signal response: " ++ r.error))

theorem emitTrace_take (subs : List String) (resp : String → EmitRet) :
    ∃ n, (EmitSignal subs resp).1 = subs.take n := by
  induction subs with
  | nil => exact ⟨0, rfl⟩
  | cons id rest ih =>
    by_cases h : (resp id).error = ""
    · obtain ⟨n, hn⟩ := ih
      exact ⟨n + 1, by simp [EmitSignal, h, hn]⟩
    · exact ⟨1, by simp [EmitSignal, h]⟩

theorem emitTrace_all_ok (subs : List String) (resp : String → EmitRet) :
    (∀ id ∈ subs, (resp id).error = "") → (EmitSignal subs resp).1 = subs := by
  induction subs with
  | nil => intro _; rfl
  | cons id rest ih =>
    intro h
    have h0 : (resp id).error = "" := h id (List.mem_cons_self id rest)
    simp only [EmitSignal, h0, if_pos]
    exact congrArg (id :: ·) (ih (fun i hi => h i (List.mem_cons_of_mem _ hi)))

theorem emitTrace_shortcircuit (subs : List String) (resp : String → EmitRet) :
    ∀ k (hk : k < subs.length),
      (∀ j (hj : j < k), (resp (subs.get ⟨j, Nat.lt_trans hj hk⟩)).error = "") →
      (resp (subs.get ⟨k, hk⟩)).error ≠ "" →
      (EmitSignal subs resp).1 = subs.take (k + 1) ∧
      (EmitSignal subs resp).2 =
        Except.error ("Received error as signal response: " ++
          (resp (subs.get ⟨k, hk⟩)).error) := by
  induction subs with
  | nil => intro k hk; exact absurd hk (Nat.not_lt_zero k)
  | cons id rest ih =>
    intro k hk hfirst herr
    match k with
    | 0 =>
      have h0 : ¬ (resp id).error = "" := herr
      constructor <;> simp [EmitSignal, h0]
    | Nat.succ k' =>
      have h0 : (resp id).error = "" := hfirst 0 (Nat.succ_pos k')
      have hk' : k' < rest.length := Nat.lt_of_succ_lt_succ hk
      have ih' := ih k' hk' (fun j hj => hfirst (j + 1) (Nat.succ_lt_succ hj)) herr
      refine ⟨?_, ?_⟩
      · simp only [EmitSignal, h0, if_pos, List.take]
        exact congrArg (id :: ·) ih'.1
      · simp only [EmitSignal, h0, if_pos, ih'.2]
        rfl

/-- C1: for every signal, `EmitSignal` delivers to the subscribers strictly
in subscription order (the delivery trace is always an initial segment of
the subscription list, and equals the whole list when every subscriber
replies without error); and when the first erroring subscriber sits at
position `k`, `EmitSignal` returns that subscriber's error and the trace
stops at position `k`, so no later subscriber ever receives the signal. -/
theorem EmitSignal_sequential_shortcircuit (subs : List String) (resp : String → EmitRet) :
    (∃ n, (EmitSignal subs resp).1 = subs.take n) ∧
    ((∀ id ∈ subs, (resp id).error = "") → (EmitSignal subs resp).1 = subs) ∧
    (∀ k (hk : k < subs.length),
      (∀ j (hj : j < k), (resp (subs.get ⟨j, Nat.lt_trans hj hk⟩)).error = "") →
      (resp (subs.get ⟨k, hk⟩)).error ≠ "" →
      (EmitSignal subs resp).1 = subs.take (k + 1) ∧
      (EmitSignal subs resp).2 =
        Except.error ("Received error as signal response: " ++
          (resp (subs.get ⟨k, hk⟩)).error)) :=
  ⟨emitTrace_take subs resp, emitTrace_all_ok subs resp, emitTrace_shortcircuit subs resp⟩

/-- Signal-bus state after connecting S1, S2, S3 to signal `sig` in order. -/
def sigStateW : SignalState :=
  ConnectSignal (ConnectSignal (ConnectSignal ⟨[], []⟩ "S1" "sig") "S2" "sig") "S3" "sig"

/-- Response oracle in which subscriber S2 reports an error. -/
def respW : String → EmitRet := fun id =>
  if id = "S2" then ⟨[], "invalid input"⟩ else ⟨[], ""⟩

theorem EmitSignal_sequential_shortcircuit_witness :
    (EmitSignal ((alookup "sig" sigStateW.subscriptions).getD []) respW).1 = ["S1", "S2"] ∧
    (EmitSignal ((alookup "sig" sigStateW.subscriptions).getD []) respW).2 =
      Except.error "Received error as signal response: invalid input" := by
  have h := (EmitSignal_sequential_shortcircuit
      ((alookup "sig" sigStateW.subscriptions).getD []) respW).2.2 1 (by decide)
      (fun j hj => by
        have hj0 : j = 0 := Nat.lt_one_iff.mp hj
        subst hj0
        rfl)
      (by decide)
  refine ⟨h.1.trans ?_, h.2.trans ?_⟩
  · decide
  · rfl

/-- C6 counterexample: connecting the same subscriber to the same signal
twice does not leave the single-connection state: the subscription list
holds the id twice, and an emission then delivers the signal to that
subscriber twice. -/
theorem ConnectSignal_not_idempotent :
    ConnectSignal (ConnectSignal ⟨[], []⟩ "S1" "nodeUpdated") "S1" "nodeUpdated" ≠
      ConnectSignal ⟨[], []⟩ "S1" "nodeUpdated" ∧
    alookup "nodeUpdated"
      (ConnectSignal (ConnectSignal ⟨[], []⟩ "S1" "nodeUpdated") "S1" "nodeUpdated").subscriptions
      = some ["S1", "S1"] ∧
    (EmitSignal ((alookup "nodeUpdated"
        (ConnectSignal (ConnectSignal ⟨[], []⟩ "S1" "nodeUpdated") "S1"
          "nodeUpdated").subscriptions).getD [])
      (fun _ => ⟨[], ""⟩)).1 = ["S1", "S1"] := by
  refine ⟨by decide, by decide, by decide⟩

/-- C6 amended: `ConnectSignal` appends the subscriber id to the signal's
subscription list unconditionally, so a second identical call adds a
duplicate entry and a subsequent emission delivers the signal to that
subscriber twice; only the creation of the subscriber's inbound channel is
idempotent. -/
theorem ConnectSignal_appends (st : SignalState) (id sig : String) :
    alookup sig (ConnectSignal st id sig).subscriptions =
      some ((alookup sig st.subscriptions).getD [] ++ [id]) ∧
    alookup sig (ConnectSignal (ConnectSignal st id sig) id sig).subscriptions =
      some ((alookup sig st.subscriptions).getD [] ++ [id, id]) ∧
    (ConnectSignal (ConnectSignal st id sig) id sig).subscriber =
      (ConnectSignal st id sig).subscriber := by
  have h1 : alookup sig (ConnectSignal st id sig).subscriptions =
      some ((alookup sig st.subscriptions).getD [] ++ [id]) := by
    simp [ConnectSignal, alookup_aset]
  refine ⟨h1, ?_, ?_⟩
  · have h2 : alookup sig (ConnectSignal (ConnectSignal st id sig) id sig).subscriptions =
        some ((alookup sig (ConnectSignal st id sig).subscriptions).getD [] ++ [id]) := by
      simp [ConnectSignal, alookup_aset]
    rw [h2, h1]
    simp
  · show (ConnectSignal (ConnectSignal st id sig) id sig).subscriber =
      (ConnectSignal st id sig).subscriber
    simp only [ConnectSignal]
    by_cases h : id ∈ st.subscriber
    · simp [h]
    · simp [h]

/-! ## Service publication -/

/-- The switch statement over the service name in `PublishService`: it has
only a default branch, which produces an unknown-service error for every
service name. -/
def publishServiceSwitch (service : String) : Option String :=
  some ("Unknown service type " ++ service)

/-- The `PublishService` operation over the `Services` map contents: when
the switch produces an error it is returned at once; the registration code
appending the path runs only when the switch falls through. -/
def PublishService (services : List (String × List String)) (service path : String) :
    Option String × List (String × List String) :=
  match publishServiceSwitch service with
  | some e => (some e, services)
  | none =>
    (none, aset service ((alookup service services).getD [] ++ [path]) services)

/-- C10: `PublishService` rejects every request with the unknown-service
error and leaves the `Services` map unchanged; the registration code after
the switch never runs. -/
theorem PublishService_always_rejects (services : List (String × List String))
    (service path : String) :
    PublishService services service path =
      (some ("Unknown service type " ++ service), services) := rfl

/-! ## Node-type and field registry -/

theorem alookup_append_some {α : Type} {k : String} {l : List (String × α)} {a : α}
    (h : alookup k l = some a) (l' : List (String × α)) :
    alookup k (l ++ l') = some a := by
  rw [alookup_append, h]

theorem alookup_append_single {α : Type} {k : String} {l : List (String × α)}
    (h : alookup k l = none) (a : α) :
    alookup k (l ++ [(k, a)]) = some a := by
  rw [alookup_append, h]
  simp [alookup]

theorem alookup_append_single_ne {α : Type} {k k' : String} {l : List (String × α)}
    (h : alookup k l = none) (hne : k' ≠ k) (a : α) :
    alookup k (l ++ [(k', a)]) = none := by
  rw [alookup_append, h]
  simp [alookup, hne]

/-- Go quoting and JSON string encoding for plain strings (strings without
quotation marks, backslashes or control characters): both render such a
string wrapped in quotation marks. -/
def quotePlain (s : String) : String := "\"" ++ s ++ "\""

/-- Modelled from the spec: the field-type tag of a field definition
(text, HTML, file, file reference, or node reference); the api package
defining the Go type is outside the embedded sources. -/
inductive FieldType where
  | text
  | html
  | file
  | fileRef
  | nodeRef
  deriving DecidableEq, Repr

/-- Modelled from the spec: a field definition as registered by a node
type: id, required flag, display name (the per-locale map simplified to
one string), and the field-type tag; the api package defining the Go
struct is outside the embedded sources. -/
structure FieldConfig where
  id : String
  required : Bool
  name : String
  fieldType : FieldType
  deriving DecidableEq, Repr

/-- The canonical field store: the NodeFields map from a field id to the
address of its canonical definition, together with a heap assigning each
allocated field definition object an address (Go pointer identity is
embedded as heap-address identity). -/
structure FieldStore where
  nodeFields : List (String × Nat)
  heap : Nat → Option FieldConfig
  next : Nat

/-- Allocates an incoming field definition as the canonical one for its
id, at a fresh heap address. -/
def allocField (s : FieldStore) (f : FieldConfig) : FieldStore :=
  { nodeFields := s.nodeFields ++ [(f.id, s.next)]
    heap := fun a => if a = s.next then some f else s.heap a
    next := s.next + 1 }

/-- The field-deduplication loop of `RegisterNodeType`: for each declared
field in order, the field slot is redirected to the address of an already
registered field with the same id when one exists; otherwise the incoming
definition becomes the canonical one.  Returns the updated store and the
addresses the registered type's field slots point at. -/
def registerFields (s : FieldStore) : List FieldConfig → FieldStore × List Nat
  | [] => (s, [])
  | f :: fs =>
    match alookup f.id s.nodeFields with
    | some addr =>
      let r := registerFields s fs
      (r.1, addr :: r.2)
    | none =>
      let r := registerFields (allocField s f) fs
      (r.1, s.next :: r.2)

/-- Modelled from the spec: a registered node type as held by the
registry: id, hide flag, addable-to patterns, and the addresses of its
deduplicated field definitions; the api package defining the Go struct is
outside the embedded sources. -/
structure RegNodeType where
  id : String
  hide : Bool
  addableTo : List String
  fields : List Nat
  deriving DecidableEq, Repr

/-- An incoming node type as passed to `RegisterNodeType`, whose field
list still holds the caller's own field definition objects. -/
structure NodeTypeIn where
  id : String
  hide : Bool
  addableTo : List String
  fields : List FieldConfig
  deriving DecidableEq, Repr

/-- Registry state: the NodeTypes map plus the canonical field store. -/
structure Registry where
  nodeTypes : List (String × RegNodeType)
  store : FieldStore

/-- The `RegisterNodeType` operation: fails, leaving the registry
untouched, when the id is already registered; otherwise stores the type
and runs the field-deduplication loop over its declared fields. -/
def RegisterNodeType (reg : Registry) (nt : NodeTypeIn) : Option String × Registry :=
  match alookup nt.id reg.nodeTypes with
  | some _ => (some ("Node type with id " ++ nt.id ++ " does already exist"), reg)
  | none =>
    let r := registerFields reg.store nt.fields
    (none,
      { nodeTypes := reg.nodeTypes ++ [(nt.id, ⟨nt.id, nt.hide, nt.addableTo, r.2⟩)]
        store := r.1 })

/-- The `GetNodeType` operation: the registered type, or an unknown-type
error. -/
def GetNodeType (reg : Registry) (nodeTypeID : String) : Except String RegNodeType :=
  match alookup nodeTypeID reg.nodeTypes with
  | some t => Except.ok t
  | none => Except.error ("Unknown node type " ++ quotePlain nodeTypeID)

/-- C2: when a node type with the same id is already registered,
`RegisterNodeType` fails with the duplicate-type error and the registry is
unchanged by the failing call, so the first definition is still
retrievable through `GetNodeType` and no field registration from the
rejected type takes effect. -/
theorem RegisterNodeType_duplicate (reg : Registry) (nt : NodeTypeIn) (t : RegNodeType)
    (h : alookup nt.id reg.nodeTypes = some t) :
    RegisterNodeType reg nt =
      (some ("Node type with id " ++ nt.id ++ " does already exist"), reg) ∧
    GetNodeType (RegisterNodeType reg nt).2 nt.id = Except.ok t := by
  constructor
  · simp [RegisterNodeType, h]
  · simp [RegisterNodeType, h, GetNodeType]

/-- The empty registry at daemon start. -/
def regEmpty : Registry := ⟨[], ⟨[], fun _ => none, 0⟩⟩

/-- The core.Document node type registered by the daemon's init code,
with its core.Title field. -/
def docTypeW : NodeTypeIn :=
  ⟨"core.Document", false, ["."],
    [⟨"core.Title", true, "Title", FieldType.text⟩]⟩

theorem RegisterNodeType_duplicate_witness :
    RegisterNodeType (RegisterNodeType regEmpty docTypeW).2 docTypeW =
      (some "Node type with id core.Document does already exist",
        (RegisterNodeType regEmpty docTypeW).2) ∧
    GetNodeType (RegisterNodeType (RegisterNodeType regEmpty docTypeW).2 docTypeW).2
        "core.Document" =
      Except.ok ⟨"core.Document", false, ["."], [0]⟩ := by
  have h := RegisterNodeType_duplicate (RegisterNodeType regEmpty docTypeW).2 docTypeW
    ⟨"core.Document", false, ["."], [0]⟩ (by rfl)
  exact ⟨h.1, h.2⟩

theorem registerFields_preserves (fs : List FieldConfig) :
    ∀ (s : FieldStore) (k : String) (a : Nat), alookup k s.nodeFields = some a →
      alookup k (registerFields s fs).1.nodeFields = some a := by
  induction fs with
  | nil => intro s k a h; exact h
  | cons f fs ih =>
    intro s k a h
    cases hf : alookup f.id s.nodeFields with
    | some addr =>
      simp only [registerFields, hf]
      exact ih s k a h
    | none =>
      simp only [registerFields, hf]
      exact ih (allocField s f) k a (alookup_append_some h _)

theorem registerFields_next_mono (fs : List FieldConfig) :
    ∀ s : FieldStore, s.next ≤ (registerFields s fs).1.next := by
  induction fs with
  | nil => intro s; exact Nat.le_refl _
  | cons f fs ih =>
    intro s
    cases hf : alookup f.id s.nodeFields with
    | some addr =>
      simp only [registerFields, hf]
      exact ih s
    | none =>
      simp only [registerFields, hf]
      exact Nat.le_trans (Nat.le_succ s.next) (ih (allocField s f))

theorem registerFields_heap_preserves (fs : List FieldConfig) :
    ∀ (s : FieldStore) (a : Nat), a < s.next →
      (registerFields s fs).1.heap a = s.heap a := by
  induction fs with
  | nil => intro s a _; rfl
  | cons f fs ih =>
    intro s a ha
    cases hf : alookup f.id s.nodeFields with
    | some addr =>
      simp only [registerFields, hf]
      exact ih s a ha
    | none =>
      simp only [registerFields, hf]
      have h1 : (registerFields (allocField s f) fs).1.heap a = (allocField s f).heap a :=
        ih (allocField s f) a (Nat.lt_succ_of_lt ha)
      rw [h1]
      show (if a = s.next then some f else s.heap a) = s.heap a
      rw [if_neg (Nat.ne_of_lt ha)]

theorem registerFields_slot_lookup (fs : List FieldConfig) :
    ∀ (s : FieldStore) (i : Nat) (f : FieldConfig), fs[i]? = some f →
      ∃ a, (registerFields s fs).2[i]? = some a ∧
        alookup f.id (registerFields s fs).1.nodeFields = some a := by
  induction fs with
  | nil => intro s i f h; simp at h
  | cons g fs ih =>
    intro s i f h
    cases hf : alookup g.id s.nodeFields with
    | some addr =>
      match i with
      | 0 =>
        have hg : g = f := by simpa using h
        subst hg
        refine ⟨addr, ?_, ?_⟩
        · simp [registerFields, hf]
        · simp only [registerFields, hf]
          exact registerFields_preserves fs s g.id addr hf
      | Nat.succ i' =>
        have h' : fs[i']? = some f := by simpa using h
        obtain ⟨a, h1, h2⟩ := ih s i' f h'
        refine ⟨a, ?_, ?_⟩
        · simp only [registerFields, hf]
          simpa using h1
        · simp only [registerFields, hf]
          exact h2
    | none =>
      match i with
      | 0 =>
        have hg : g = f := by simpa using h
        subst hg
        refine ⟨s.next, ?_, ?_⟩
        · simp [registerFields, hf]
        · simp only [registerFields, hf]
          exact registerFields_preserves fs (allocField s g) g.id s.next
            (alookup_append_single hf s.next)
      | Nat.succ i' =>
        have h' : fs[i']? = some f := by simpa using h
        obtain ⟨a, h1, h2⟩ := ih (allocField s g) i' f h'
        refine ⟨a, ?_, ?_⟩
        · simp only [registerFields, hf]
          simpa using h1
        · simp only [registerFields, hf]
          exact h2

theorem registerFields_first_value (fs : List FieldConfig) :
    ∀ (s : FieldStore) (F : String) (i : Nat) (f : FieldConfig),
      alookup F s.nodeFields = none → fs[i]? = some f → f.id = F →
      (∀ j g, j < i → fs[j]? = some g → g.id ≠ F) →
      ∃ a, alookup F (registerFields s fs).1.nodeFields = some a ∧
        (registerFields s fs).1.heap a = some f ∧
        a < (registerFields s fs).1.next := by
  induction fs with
  | nil => intro s F i f _ h; simp at h
  | cons g fs ih =>
    intro s F i f hF h hfF hfirst
    match i with
    | 0 =>
      have hg : g = f := by simpa using h
      subst hg
      have hfid : alookup g.id s.nodeFields = none := by rw [hfF]; exact hF
      simp only [registerFields, hfid]
      refine ⟨s.next, ?_, ?_, ?_⟩
      · refine registerFields_preserves fs (allocField s g) F s.next ?_
        show alookup F (s.nodeFields ++ [(g.id, s.next)]) = some s.next
        rw [hfF]
        exact alookup_append_single hF s.next
      · have h1 : (registerFields (allocField s g) fs).1.heap s.next =
            (allocField s g).heap s.next :=
          registerFields_heap_preserves fs (allocField s g) s.next (Nat.lt_succ_self s.next)
        rw [h1]
        show (if s.next = s.next then some g else s.heap s.next) = some g
        rw [if_pos rfl]
      · exact Nat.lt_of_lt_of_le (Nat.lt_succ_self s.next)
          (registerFields_next_mono fs (allocField s g))
    | Nat.succ i' =>
      have hgF : g.id ≠ F := hfirst 0 g (Nat.succ_pos i') (by simp)
      have h' : fs[i']? = some f := by simpa using h
      have hfirst' : ∀ j g', j < i' → fs[j]? = some g' → g'.id ≠ F :=
        fun j g' hj hg' => hfirst (j + 1) g' (Nat.succ_lt_succ hj) (by simpa using hg')
      cases hf : alookup g.id s.nodeFields with
      | some addr =>
        simp only [registerFields, hf]
        exact ih s F i' f hF h' hfF hfirst'
      | none =>
        simp only [registerFields, hf]
        exact ih (allocField s g) F i' f (alookup_append_single_ne hF hgF s.next) h' hfF hfirst'

theorem RegisterNodeType_success (reg : Registry) (nt : NodeTypeIn)
    (h : alookup nt.id reg.nodeTypes = none) :
    RegisterNodeType reg nt = (none,
      ⟨reg.nodeTypes ++ [(nt.id, ⟨nt.id, nt.hide, nt.addableTo,
        (registerFields reg.store nt.fields).2⟩)],
        (registerFields reg.store nt.fields).1⟩) := by
  simp [RegisterNodeType, h]

/-- Address of field slot `i` of the node type registered under `tid`. -/
def typeFieldAddr (reg : Registry) (tid : String) (i : Nat) : Option Nat :=
  match alookup tid reg.nodeTypes with
  | some t => t.fields[i]?
  | none => none

/-- The field definition object reached through field slot `i` of the node
type registered under `tid`. -/
def typeFieldDef (reg : Registry) (tid : String) (i : Nat) : Option FieldConfig :=
  match typeFieldAddr reg tid i with
  | some a => reg.store.heap a
  | none => none

/-- Overwrites the field definition object at heap address `a`: the
embedding of mutating shared field metadata through a Go pointer. -/
def setFieldDef (reg : Registry) (a : Nat) (v : FieldConfig) : Registry :=
  { reg with store := { reg.store with
      heap := fun a' => if a' = a then some v else reg.store.heap a' } }

/-- C7: after successfully registering type A declaring a field with id F
and then type B declaring a field with the same id, both types' field
slots hold the same canonical address, the definition stored there is the
one first registered (A's, when F was previously unregistered), and
overwriting the shared definition object is visible through both types. -/
theorem RegisterNodeType_field_dedup (reg : Registry) (A B : NodeTypeIn) (F : String)
    (i j : Nat) (fA fB : FieldConfig)
    (hA : alookup A.id reg.nodeTypes = none)
    (hB : alookup B.id reg.nodeTypes = none)
    (hAB : A.id ≠ B.id)
    (hiA : A.fields[i]? = some fA) (hjB : B.fields[j]? = some fB)
    (hFA : fA.id = F) (hFB : fB.id = F)
    (hFfresh : alookup F reg.store.nodeFields = none)
    (hFfirst : ∀ j' g, j' < i → A.fields[j']? = some g → g.id ≠ F) :
    (RegisterNodeType reg A).1 = none ∧
    (RegisterNodeType (RegisterNodeType reg A).2 B).1 = none ∧
    ∃ a, typeFieldAddr (RegisterNodeType (RegisterNodeType reg A).2 B).2 A.id i = some a ∧
      typeFieldAddr (RegisterNodeType (RegisterNodeType reg A).2 B).2 B.id j = some a ∧
      typeFieldDef (RegisterNodeType (RegisterNodeType reg A).2 B).2 A.id i = some fA ∧
      typeFieldDef (RegisterNodeType (RegisterNodeType reg A).2 B).2 B.id j = some fA ∧
      ∀ v, typeFieldDef (setFieldDef (RegisterNodeType (RegisterNodeType reg A).2 B).2 a v)
          A.id i = some v ∧
        typeFieldDef (setFieldDef (RegisterNodeType (RegisterNodeType reg A).2 B).2 a v)
          B.id j = some v := by
  have eA := RegisterNodeType_success reg A hA
  have hA1 : (RegisterNodeType reg A).1 = none := by rw [eA]
  have eAstore : (RegisterNodeType reg A).2.store = (registerFields reg.store A.fields).1 := by
    rw [eA]
  have eAtypes : (RegisterNodeType reg A).2.nodeTypes =
      reg.nodeTypes ++ [(A.id, ⟨A.id, A.hide, A.addableTo,
        (registerFields reg.store A.fields).2⟩)] := by
    rw [eA]
  have hBlook : alookup B.id (RegisterNodeType reg A).2.nodeTypes = none := by
    rw [eAtypes]
    exact alookup_append_single_ne hB hAB _
  have eB := RegisterNodeType_success (RegisterNodeType reg A).2 B hBlook
  have hB1 : (RegisterNodeType (RegisterNodeType reg A).2 B).1 = none := by
    rw [eB]
  have eBstore : (RegisterNodeType (RegisterNodeType reg A).2 B).2.store =
      (registerFields (RegisterNodeType reg A).2.store B.fields).1 := by
    rw [eB]
  have eBtypes : (RegisterNodeType (RegisterNodeType reg A).2 B).2.nodeTypes =
      (RegisterNodeType reg A).2.nodeTypes ++ [(B.id, ⟨B.id, B.hide, B.addableTo,
        (registerFields (RegisterNodeType reg A).2.store B.fields).2⟩)] := by
    rw [eB]
  obtain ⟨a, haslot, halook⟩ := registerFields_slot_lookup A.fields reg.store i fA hiA
  rw [hFA] at halook
  obtain ⟨a0, hlook0, hval0, hbound0⟩ :=
    registerFields_first_value A.fields reg.store F i fA hFfresh hiA hFA hFfirst
  have ha0 : a0 = a := by
    rw [halook] at hlook0
    exact (Option.some.inj hlook0).symm
  rw [ha0] at hval0 hbound0
  obtain ⟨b, hbslot, hblook⟩ := registerFields_slot_lookup B.fields
    (RegisterNodeType reg A).2.store j fB hjB
  rw [hFB] at hblook
  have hpres : alookup F
      (registerFields (RegisterNodeType reg A).2.store B.fields).1.nodeFields = some a := by
    apply registerFields_preserves
    rw [eAstore]
    exact halook
  have hba : b = a := Option.some.inj (hblook.symm.trans hpres)
  rw [hba] at hbslot
  have hlt : a < (RegisterNodeType reg A).2.store.next := by
    rw [eAstore]
    exact hbound0
  have hheapB : (registerFields (RegisterNodeType reg A).2.store B.fields).1.heap a =
      some fA := by
    rw [registerFields_heap_preserves B.fields (RegisterNodeType reg A).2.store a hlt]
    rw [eAstore]
    exact hval0
  have hAkey : alookup A.id (RegisterNodeType (RegisterNodeType reg A).2 B).2.nodeTypes =
      some ⟨A.id, A.hide, A.addableTo, (registerFields reg.store A.fields).2⟩ := by
    rw [eBtypes, eAtypes]
    exact alookup_append_some (alookup_append_single hA _) _
  have hBkey : alookup B.id (RegisterNodeType (RegisterNodeType reg A).2 B).2.nodeTypes =
      some ⟨B.id, B.hide, B.addableTo,
        (registerFields (RegisterNodeType reg A).2.store B.fields).2⟩ := by
    rw [eBtypes]
    exact alookup_append_single hBlook _
  refine ⟨hA1, hB1, a, ?_, ?_, ?_, ?_, ?_⟩
  · simp [typeFieldAddr, hAkey, haslot]
  · simp [typeFieldAddr, hBkey, hbslot]
  · simp [typeFieldDef, typeFieldAddr, hAkey, haslot, eBstore, hheapB]
  · simp [typeFieldDef, typeFieldAddr, hBkey, hbslot, eBstore, hheapB]
  · intro v
    constructor
    · simp [typeFieldDef, typeFieldAddr, setFieldDef, hAkey, haslot]
    · simp [typeFieldDef, typeFieldAddr, setFieldDef, hBkey, hbslot]

/-- The core.File node type registered by the daemon's init code, whose
first field redeclares core.Title. -/
def fileTypeW : NodeTypeIn :=
  ⟨"core.File", false, ["."],
    [⟨"core.Title", false, "", FieldType.text⟩,
     ⟨"core.File", true, "File", FieldType.file⟩]⟩

theorem RegisterNodeType_field_dedup_witness :
    typeFieldAddr (RegisterNodeType (RegisterNodeType regEmpty docTypeW).2 fileTypeW).2
        "core.Document" 0 = some 0 ∧
    typeFieldAddr (RegisterNodeType (RegisterNodeType regEmpty docTypeW).2 fileTypeW).2
        "core.File" 0 = some 0 ∧
    typeFieldDef (RegisterNodeType (RegisterNodeType regEmpty docTypeW).2 fileTypeW).2
        "core.File" 0 = some ⟨"core.Title", true, "Title", FieldType.text⟩ := by
  obtain ⟨-, -, a, h1, h2, -, h4, -⟩ :=
    RegisterNodeType_field_dedup regEmpty docTypeW fileTypeW "core.Title" 0 0
      ⟨"core.Title", true, "Title", FieldType.text⟩ ⟨"core.Title", false, "", FieldType.text⟩
      rfl rfl (by decide) rfl rfl rfl rfl rfl
      (fun j' g hj' _ => absurd hj' (Nat.not_lt_zero j'))
  have ha : a = 0 := Option.some.inj (h1.symm.trans (by rfl))
  rw [ha] at h1 h2
  exact ⟨h1, h2, h4⟩

/-! ## Addable node types -/

/-- Go byte indexing `s[i]` over an ASCII string: `none` embeds the
out-of-range runtime panic. -/
def goIndex (s : String) (i : Nat) : Option Char := s.data.get? i

/-- Go string slicing `s[0:n]`: the first `n` characters, `none` when `n`
exceeds the length (an out-of-range runtime panic). -/
def goSliceTo (s : String) (n : Nat) : Option (List Char) :=
  if n ≤ s.data.length then some (s.data.take n) else none

/-- One pattern test of `findAddableNodeTypes`: the pattern matches when it
is the root pattern, equals the parent type id, or ends with the separator
and is a literal choice of the parent id's first characters; indexing an
empty pattern and slicing a parent id shorter than the pattern are runtime
panics (`none`). -/
def addableMatch (nodeType pattern : String) : Option Bool :=
  if pattern = "." then some true
  else if pattern = nodeType then some true
  else
    match goIndex pattern (pattern.length - 1) with
    | none => none
    | some c =>
      if c = '.' then
        match goSliceTo nodeType pattern.length with
        | none => none
        | some pre => some (pre = pattern.data)
      else some false

/-- The loop over one type's AddableTo patterns: stops at the first
matching pattern, propagating a panic. -/
def anyAddableMatch (nodeType : String) : List String → Option Bool
  | [] => some false
  | p :: ps =>
    match addableMatch nodeType p with
    | none => none
    | some true => some true
    | some false => anyAddableMatch nodeType ps

/-- The `findAddableNodeTypes` loop over the registered node types,
collecting the ids of the types addable to the given parent type id;
`none` embeds the out-of-range panic. -/
def findAddableNodeTypes (nodeType : String) : List RegNodeType → Option (List String)
  | [] => some []
  | t :: ts =>
    match anyAddableMatch nodeType t.addableTo with
    | none => none
    | some true => (findAddableNodeTypes nodeType ts).map (fun l => t.id :: l)
    | some false => findAddableNodeTypes nodeType ts

/-- C5: with registered types whose AddableTo lists are the root pattern,
a namespace prefix pattern, and an exact id, the addable types for parent
"ns.specific" are exactly those three; and a pattern "ns" without the
trailing separator does not match the parent "nsx.specific" (prefix
matching requires the separator, it is not substring matching). -/
theorem findAddableNodeTypes_matching :
    findAddableNodeTypes "ns.specific"
      [⟨"rootType", false, ["."], []⟩, ⟨"nsType", false, ["ns."], []⟩,
       ⟨"exactType", false, ["ns.specific"], []⟩] =
      some ["rootType", "nsType", "exactType"] ∧
    findAddableNodeTypes "nsx.specific" [⟨"noDotType", false, ["ns"], []⟩] = some [] := by
  constructor <;> rfl

/-- C4 counterexample: with a registered type addable under a namespace
pattern ending in the separator, querying the addable types for the empty
parent type id slices the parent out of range: a runtime panic instead of
a result, so the matching does not succeed for every parent type id. -/
theorem findAddableNodeTypes_panics :
    findAddableNodeTypes "" [⟨"doc", false, ["ns."], []⟩] = none := by rfl

theorem addableMatch_isSome (nodeType p : String) (hp : p ≠ "")
    (hdot : p.data.getLast? = some '.' → p = "." ∨ p.length ≤ nodeType.length) :
    (addableMatch nodeType p).isSome = true := by
  unfold addableMatch
  by_cases h1 : p = "."
  · simp [h1]
  · by_cases h2 : p = nodeType
    · simp [h1, h2]
    · rw [if_neg h1, if_neg h2]
      have hne : p.data ≠ [] := fun hc => hp (by cases p; simp_all)
      have hlast : goIndex p (p.length - 1) = p.data.getLast? := by
        unfold goIndex
        rw [List.get?_eq_getElem?, List.getLast?_eq_getElem?]
        rfl
      rw [hlast]
      cases hl : p.data.getLast? with
      | none => exact absurd (List.getLast?_eq_none_iff.mp hl) hne
      | some c =>
        by_cases hc : c = '.'
        · subst hc
          rcases hdot hl with h | h
          · exact absurd h h1
          · have h' : p.length ≤ nodeType.data.length := h
            have hslice : goSliceTo nodeType p.length = some (nodeType.data.take p.length) := by
              unfold goSliceTo
              rw [if_pos h']
            simp [hslice]
        · simp [hc]

theorem anyAddableMatch_isSome (nodeType : String) (ps : List String)
    (h : ∀ p ∈ ps, p ≠ "" ∧
      (p.data.getLast? = some '.' → p = "." ∨ p.length ≤ nodeType.length)) :
    (anyAddableMatch nodeType ps).isSome = true := by
  induction ps with
  | nil => rfl
  | cons p ps ih =>
    have hp := h p (List.mem_cons_self p ps)
    have hm := addableMatch_isSome nodeType p hp.1 hp.2
    cases ham : addableMatch nodeType p with
    | none => rw [ham] at hm; simp at hm
    | some b =>
      cases b with
      | true => simp [anyAddableMatch, ham]
      | false =>
        simp only [anyAddableMatch, ham]
        exact ih (fun q hq => h q (List.mem_cons_of_mem _ hq))

/-- C4 amended: `GetAddableNodeTypes` never returns a Go error, but the
matching is not total: it panics for a parent type id shorter than a
registered separator-terminated pattern (and for an empty pattern).
Whenever every registered AddableTo pattern is non-empty and every
separator-terminated pattern is the root pattern or no longer than the
parent type id, `findAddableNodeTypes` returns a result without
panicking. -/
theorem findAddableNodeTypes_total (nodeType : String) (ts : List RegNodeType)
    (h : ∀ t ∈ ts, ∀ p ∈ t.addableTo, p ≠ "" ∧
      (p.data.getLast? = some '.' → p = "." ∨ p.length ≤ nodeType.length)) :
    (findAddableNodeTypes nodeType ts).isSome = true := by
  induction ts with
  | nil => rfl
  | cons t ts ih =>
    have hm := anyAddableMatch_isSome nodeType t.addableTo (h t (List.mem_cons_self t ts))
    cases ham : anyAddableMatch nodeType t.addableTo with
    | none => rw [ham] at hm; simp at hm
    | some b =>
      have ih' := ih (fun u hu => h u (List.mem_cons_of_mem _ hu))
      cases b with
      | true =>
        simp only [findAddableNodeTypes, ham]
        simpa using ih'
      | false =>
        simp only [findAddableNodeTypes, ham]
        exact ih'

theorem findAddableNodeTypes_total_witness :
    (findAddableNodeTypes "ns.specific"
      [⟨"rootType", false, ["."], []⟩, ⟨"nsType", false, ["ns."], []⟩,
       ⟨"exactType", false, ["ns.specific"], []⟩]).isSome = true :=
  findAddableNodeTypes_total "ns.specific"
    [⟨"rootType", false, ["."], []⟩, ⟨"nsType", false, ["ns."], []⟩,
     ⟨"exactType", false, ["ns.specific"], []⟩] (by decide)

/-! ## File-backed node store -/

/-- Result of reading a file: found content, absent, or a non-not-found
I/O failure with its message. -/
inductive ReadRes where
  | found (content : String)
  | notFound
  | ioError (msg : String)
  deriving DecidableEq, Repr

/-- The path-prefix string `getNode` builds with Sprintf and injects in
front of the document's members: an opening brace, the quoted Path member,
and a trailing comma. -/
def pathJson (path : String) : String := "\x7b\"Path\":" ++ quotePlain path ++ ","

/-- Replaces the first opening brace of a character list by `repl`. -/
def replaceFirstBraceAux (repl : List Char) : List Char → List Char
  | [] => []
  | c :: cs => if c = '\x7b' then repl ++ cs else c :: replaceFirstBraceAux repl cs

/-- The single-replacement call of `getNode` over the document bytes:
replaces the first opening brace by `repl`. -/
def replaceFirstBrace (s repl : String) : String :=
  String.mk (replaceFirstBraceAux repl.data s.data)

/-- The body of `getNode` given the read of the node document: absence
yields the explicit no-node result (not an error), other read failures are
returned as errors, and on success the path is injected as the first
member of the document. -/
def getNodeCore (read : ReadRes) (path : String) : Except String (Option String) :=
  match read with
  | ReadRes.notFound => Except.ok none
  | ReadRes.ioError e => Except.error e
  | ReadRes.found content => Except.ok (some (replaceFirstBrace content (pathJson path)))

/-- Go `filepath.Join` on already-clean components: joins the non-empty
components with the separator (path cleaning is not needed for the joined
keys considered here, and both writer and reader join identically). -/
def fpJoin (parts : List String) : String :=
  String.intercalate "/" (parts.filter (fun p => p ≠ ""))

/-- The synthetic placeholder document `getChildren` builds for a
directory without a node document. -/
def pathTypeJson (p : String) : String :=
  "\x7b\"Path\":" ++ quotePlain p ++ ",\"Type\":\"core.Path\"\x7d"

/-- A directory entry as `getChildren` sees it: its name, whether it is a
directory, and the result of reading its node document. -/
structure DirEntry where
  name : String
  isDir : Bool
  nodeRead : ReadRes
  deriving DecidableEq, Repr

/-- The child loop of `getChildren`.  The error result of the inner
`getNode` call is assigned to the blank identifier, and the error the loop
then tests is the directory listing's error, which is already nil at this
point; a failing read is therefore treated like a missing node: a
directory entry gets a synthetic core.Path placeholder and any other entry
is skipped. -/
def getChildrenLoop (path : String) : List DirEntry → List String
  | [] => []
  | e :: es =>
    let childPath := fpJoin [path, e.name]
    let node := match getNodeCore e.nodeRead childPath with
      | Except.ok n => n
      | Except.error _ => none
    match node with
    | some n => n :: getChildrenLoop path es
    | none =>
      if e.isDir then pathTypeJson childPath :: getChildrenLoop path es
      else getChildrenLoop path es

/-- The `getChildren` operation: a failure to list the directory itself
aborts; otherwise the child loop runs over the entries. -/
def getChildren (path : String) (dir : Except String (List DirEntry)) :
    Except String (List String) :=
  match dir with
  | Except.error e => Except.error e
  | Except.ok entries => Except.ok (getChildrenLoop path entries)

/-- C3, evaluated at the failing input: listing a directory whose child's
node document read fails with a non-not-found I/O error returns a
successful listing containing a synthetic placeholder — the read error is
discarded instead of aborting the listing. -/
theorem getChildren_ignores_read_error :
    getChildren "/a" (Except.ok [⟨"c", true, ReadRes.ioError "permission denied"⟩]) =
      Except.ok ["\x7b\"Path\":\"/a/c\",\"Type\":\"core.Path\"\x7d"] ∧
    getChildren "/a" (Except.ok [⟨"f", false, ReadRes.ioError "permission denied"⟩]) =
      Except.ok [] := by
  constructor <;> rfl

/-- Go `s[1:]` on a byte string: drops the first byte; `none` embeds the
out-of-range panic on the empty string. -/
def goTail (s : String) : Option String :=
  if s = "" then none else some (String.mk s.data.tail)

/-- The site's node file tree: a map from joined file paths to file
contents. -/
def FS : Type := List (String × String)

/-- The `WriteNodeData` operation: creates the node's directory (directory
creation cannot fail in the map embedding of the tree) and writes the
content under the key joined from the root, the path without its leading
separator, and the file name; `none` embeds the panic on an empty path. -/
def WriteNodeData (fs : FS) (root path file content : String) : Option FS :=
  match goTail path with
  | none => none
  | some rel => some (aset (fpJoin [root, rel, file]) content fs)

/-- Reading a file of the tree: a missing key is the not-found result. -/
def readFileFS (fs : FS) (key : String) : ReadRes :=
  match alookup key fs with
  | some c => ReadRes.found c
  | none => ReadRes.notFound

/-- The `getNode` operation over the file tree: reads the node document
under the same joined key and injects the path; `none` embeds the panic on
an empty path. -/
def getNode (fs : FS) (root path : String) : Option (Except String (Option String)) :=
  match goTail path with
  | none => none
  | some rel => some (getNodeCore (readFileFS fs (fpJoin [root, rel, "node.json"])) path)

/-- A JSON document, the shape of the node data a caller writes. -/
inductive Json where
  | null
  | bool (b : Bool)
  | num (n : Int)
  | str (s : String)
  | arr (xs : List Json)
  | obj (members : List (String × Json))

/-- Joins rendered members with commas. -/
def commaJoin : List String → String
  | [] => ""
  | [x] => x
  | x :: y :: ys => x ++ "," ++ commaJoin (y :: ys)

mutual
/-- Compact serialization of a JSON document (the embedding of the
marshaled document bytes), quoting plain strings as `quotePlain` does. -/
def serialize : Json → String
  | Json.null => "null"
  | Json.bool b => if b then "true" else "false"
  | Json.num n => toString n
  | Json.str s => quotePlain s
  | Json.arr xs => "[" ++ commaJoin (serializeItems xs) ++ "]"
  | Json.obj ms => "\x7b" ++ commaJoin (serializeMembers ms) ++ "\x7d"

/-- Serializes the elements of a JSON array. -/
def serializeItems : List Json → List String
  | [] => []
  | x :: xs => serialize x :: serializeItems xs

/-- Serializes the members of a JSON object. -/
def serializeMembers : List (String × Json) → List String
  | [] => []
  | m :: ms => (quotePlain m.1 ++ ":" ++ serialize m.2) :: serializeMembers ms
end

theorem stringDataEq {s t : String} (h : s.data = t.data) : s = t := by
  cases s; cases t
  exact congrArg String.mk h

theorem replaceFirstBrace_leading (t repl : String) :
    replaceFirstBrace ("\x7b" ++ t) repl = repl ++ t := rfl

theorem replaceFirstBrace_serialize (path : String) (m : String × Json)
    (ms : List (String × Json)) :
    replaceFirstBrace (serialize (Json.obj (m :: ms))) (pathJson path) =
      serialize (Json.obj (("Path", Json.str path) :: m :: ms)) := by
  have h1 : serialize (Json.obj (m :: ms)) =
      "\x7b" ++ (commaJoin (serializeMembers (m :: ms)) ++ "\x7d") := by
    rw [show serialize (Json.obj (m :: ms)) =
      "\x7b" ++ commaJoin (serializeMembers (m :: ms)) ++ "\x7d" from rfl]
    rw [String.append_assoc]
  rw [h1, replaceFirstBrace_leading]
  apply stringDataEq
  simp only [serialize, serializeMembers, commaJoin, pathJson, quotePlain,
    String.data_append, List.append_assoc]
  rfl

/-- C8 amended: writing the serialization of a non-empty JSON object as a
node document and reading the node back yields exactly the serialization
of the object with the Path member, equal to the written path, prepended
as its first member; the remaining members are those written. -/
theorem WriteNodeData_getNode_roundtrip (fs : FS) (root path : String)
    (m : String × Json) (ms : List (String × Json))
    (hpath : path ≠ "") (hsep : path.data.head? = some '/') :
    ∃ fs', WriteNodeData fs root path "node.json" (serialize (Json.obj (m :: ms))) = some fs' ∧
      getNode fs' root path =
        some (Except.ok (some (serialize (Json.obj (("Path", Json.str path) :: m :: ms))))) := by
  refine ⟨aset (fpJoin [root, String.mk path.data.tail, "node.json"])
      (serialize (Json.obj (m :: ms))) fs, ?_, ?_⟩
  · unfold WriteNodeData goTail
    rw [if_neg hpath]
  · unfold getNode goTail
    rw [if_neg hpath]
    show some (getNodeCore (readFileFS
        (aset (fpJoin [root, String.mk path.data.tail, "node.json"])
          (serialize (Json.obj (m :: ms))) fs)
        (fpJoin [root, String.mk path.data.tail, "node.json"])) path) =
      some (Except.ok (some (serialize (Json.obj (("Path", Json.str path) :: m :: ms)))))
    unfold readFileFS
    rw [alookup_aset]
    show some (Except.ok (some (replaceFirstBrace (serialize (Json.obj (m :: ms)))
        (pathJson path)))) = _
    rw [replaceFirstBrace_serialize]

/-- C8 counterexample: for the empty JSON object the round trip yields a
document with a trailing comma after the injected Path member, which is
not the serialization of the object with the Path member prepended; the
round trip as claimed for every JSON object therefore fails at the empty
object. -/
theorem roundtrip_fails_empty_object :
    (WriteNodeData [] "/r" "/a" "node.json" (serialize (Json.obj []))).bind
        (fun fs' => getNode fs' "/r" "/a") =
      some (Except.ok (some "\x7b\"Path\":\"/a\",\x7d")) ∧
    "\x7b\"Path\":\"/a\",\x7d" ≠ serialize (Json.obj [("Path", Json.str "/a")]) := by
  constructor
  · rfl
  · decide

theorem WriteNodeData_getNode_roundtrip_witness :
    ∃ fs', WriteNodeData [] "/r" "/a/b" "node.json"
        (serialize (Json.obj [("core.Title", Json.str "T")])) = some fs' ∧
      getNode fs' "/r" "/a/b" =
        some (Except.ok (some (serialize (Json.obj
          [("Path", Json.str "/a/b"), ("core.Title", Json.str "T")])))) :=
  WriteNodeData_getNode_roundtrip [] "/r" "/a/b" ("core.Title", Json.str "T") []
    (by decide) (by rfl)

/-! ## Site configuration -/

/-- Go full split on the separator: the result is always non-empty, and an
empty input yields one empty part. -/
def splitDot : List Char → List (List Char)
  | [] => [[]]
  | c :: cs =>
    if c = '.' then [] :: splitDot cs
    else
      match splitDot cs with
      | [] => [[c]]
      | p :: ps => (c :: p) :: ps

/-- Go split limited to two parts: the part before the first separator,
and the remainder when a separator exists at all. -/
def splitN2 : List Char → List Char × Option (List Char)
  | [] => ([], none)
  | c :: cs =>
    if c = '.' then ([], some cs)
    else
      let r := splitN2 cs
      (c :: r.1, r.2)

/-- A module configuration file as `getConfig` sees it: missing, failing
to read, malformed JSON (with the decoding error text), or a parsed JSON
document; the JSON decoding itself is the standard library's and is
embedded as this already-decoded oracle. -/
inductive ConfigFile where
  | missing
  | readError (msg : String)
  | malformed (msg : String)
  | content (doc : Json)

/-- The dotted-name traversal of `getConfig`: an empty component stops the
walk at the current target; a non-object target or a missing key yields
the nil value (JSON null, as the Go nil interface marshals). -/
def configWalk (target : Json) : List (List Char) → Json
  | [] => target
  | sub :: rest =>
    if sub = [] then target
    else
      match target with
      | Json.obj ms =>
        match alookup (String.mk sub) ms with
        | some v => configWalk v rest
        | none => Json.null
      | _ => Json.null

/-- The `getConfig` operation: a missing file yields the nil result (not
an error), read and decode failures are wrapped errors, and otherwise the
traversal result is wrapped in an object under the key Value (the final
marshaling of that object cannot fail and is left as the document). -/
def getConfig (file : ConfigFile) (name : String) : Except String (Option Json) :=
  match file with
  | ConfigFile.missing => Except.ok none
  | ConfigFile.readError msg => Except.error ("Could not read configuration: " ++ msg)
  | ConfigFile.malformed msg => Except.error ("Could not parse configuration: " ++ msg)
  | ConfigFile.content doc =>
    Except.ok (some (Json.obj [("Value", configWalk doc (splitDot name.data))]))

/-- The `GetSiteConfig` operation: splits the dotted name into the module
part before the first separator and the remaining name, and reads the
module's configuration file; accessing the second split part is an
out-of-range panic (`none`) when the name contains no separator.
`configs` maps a module file name to that module's configuration file. -/
def GetSiteConfig (configs : String → ConfigFile) (name : String) :
    Option (Except String (Option Json)) :=
  match splitN2 name.data with
  | (_, none) => none
  | (module, some rest) =>
    some (getConfig (configs (String.mk module ++ ".json")) (String.mk rest))

theorem splitN2_snd_isSome (cs : List Char) :
    (splitN2 cs).2.isSome = cs.contains '.' := by
  induction cs with
  | nil => rfl
  | cons c cs ih =>
    by_cases h : c = '.'
    · simp [splitN2, h]
    · simp [splitN2, h, ih]
      exact fun hh => absurd hh.symm h

/-- C9: `GetSiteConfig` is total exactly on names containing a separator:
such a name is split into the module and the dotted remainder and the
wrapped configuration value for that module and remainder is returned,
while a name without a separator makes the access to the second split part
panic out of range, returning neither a result nor an error. -/
theorem GetSiteConfig_requires_dot (configs : String → ConfigFile) (name : String) :
    (name.data.contains '.' = true →
      GetSiteConfig configs name =
        some (getConfig (configs (String.mk (splitN2 name.data).1 ++ ".json"))
          (String.mk ((splitN2 name.data).2.getD [])))) ∧
    (name.data.contains '.' = false → GetSiteConfig configs name = none) := by
  constructor
  · intro h
    have h2 : (splitN2 name.data).2.isSome = true := by
      rw [splitN2_snd_isSome]; exact h
    unfold GetSiteConfig
    rcases hsplit : splitN2 name.data with ⟨module, r⟩
    rw [hsplit] at h2
    cases r with
    | none => simp at h2
    | some rest' => simp
  · intro h
    have h2 : (splitN2 name.data).2.isSome = false := by
      rw [splitN2_snd_isSome]; exact h
    unfold GetSiteConfig
    rcases hsplit : splitN2 name.data with ⟨module, r⟩
    rw [hsplit] at h2
    cases r with
    | none => rfl
    | some rest' => simp at h2

/-- A configuration oracle with no configuration files on disk. -/
def configsW : String → ConfigFile := fun _ => ConfigFile.missing

theorem GetSiteConfig_requires_dot_witness :
    GetSiteConfig configsW "core.EmailAddress" =
      some (getConfig (configsW "core.json") "EmailAddress") ∧
    GetSiteConfig configsW "corename" = none := by
  constructor
  · exact ((GetSiteConfig_requires_dot configsW "core.EmailAddress").1 (by decide)).trans rfl
  · exact (GetSiteConfig_requires_dot configsW "corename").2 (by decide)

end Monsti
